import Mathlib

/-!
Verification of the `code-obituary` core pipeline.

This file gives a shallow embedding, over `List Char` / `String`, of the
pure core of `src/code_obituary/graveyard.py` and
`src/code_obituary/analyzer.py`:

* the graveyard store (`ensure_graveyard`, `append_obituary`,
  `list_obituaries`, `read_graveyard`), with the state of the log file
  modelled as `Option String` (`none` = file absent);
* the symbol extractor (`extract_symbols`, a faithful model of the two
  `re.findall` scans with `re.MULTILINE`);
* the obituary composer (`generate_template_obituary`,
  `generate_obituary`), with the external generative-text service
  modelled as an oracle `Except String String` (exception message or
  returned text) and the `ANTHROPIC_API_KEY` environment variable as an
  `Option String` parameter.

Python string semantics are modelled explicitly: `str.splitlines`
(its full set of line boundaries, with `"\r\n"` as a single boundary),
`str.strip` / `str.rstrip` (Python's whitespace set), truthiness of
strings and of optional values, `os.path.splitext`, and the leftmost,
non-overlapping scanning of `re.split` / `re.findall` / `re.match`.
Recursions that are not structural are written with an explicit fuel
argument (always initialised to more fuel than the input length needs),
so that every definition is executable and kernel-reducible.
-/

set_option autoImplicit false

namespace CodeObituary

/-! ### Python character classes -/

/-- Python `str` whitespace (the set recognised by `str.strip`,
`str.isspace` and the regex class `\s`). -/
def pyIsSpace (c : Char) : Bool :=
  c == ' ' || c == '\t' || c == '\n' || c == '\r' || c == '\x0b' || c == '\x0c' ||
  c == '\x1c' || c == '\x1d' || c == '\x1e' || c == '\x1f' || c == '\x85' || c == '\u00a0' ||
  c == '\u1680' || (decide (0x2000 ≤ c.toNat) && decide (c.toNat ≤ 0x200a)) ||
  c == '\u2028' || c == '\u2029' || c == '\u202f' || c == '\u205f' || c == '\u3000'

/-- Line-boundary characters of Python `str.splitlines`
(`"\r\n"` is additionally treated as one boundary). -/
def isLB (c : Char) : Bool :=
  c == '\n' || c == '\r' || c == '\x0b' || c == '\x0c' ||
  c == '\x1c' || c == '\x1d' || c == '\x1e' || c == '\x85' ||
  c == '\u2028' || c == '\u2029'

/-! ### Generic list helpers -/

/-- Prepend a character to the first block of a block list
(used by the various splitting functions). -/
def consHead (c : Char) : List (List Char) → List (List Char)
  | [] => [[c]]
  | h :: t => (c :: h) :: t

/-- Strip a literal pattern from the front of a list
(the way a regex engine consumes a literal). -/
def stripPre : List Char → List Char → Option (List Char)
  | [], s => some s
  | _ :: _, [] => none
  | c :: p, d :: s => if c = d then stripPre p s else none

/-- Substring search: does `pat` occur (contiguously) in `s`?
Scans every suffix for `pat` as a prefix, exactly like `x in s` /
`re` literal search over Python strings. -/
def hasSub (pat : List Char) : List Char → Bool
  | [] => pat.isPrefixOf []
  | c :: rest => pat.isPrefixOf (c :: rest) || hasSub pat rest

/-! ### Python `str.splitlines` -/

/-- Fuel-driven worker for `str.splitlines`. -/
def pySplitlinesF : Nat → List Char → List (List Char)
  | 0, _ => []
  | _ + 1, [] => []
  | f + 1, c :: rest =>
    if c == '\r' && rest.head? == some '\n' then [] :: pySplitlinesF f rest.tail
    else if isLB c then [] :: pySplitlinesF f rest
    else consHead c (pySplitlinesF f rest)

/-- Python `str.splitlines`: split at every line boundary, treating
`"\r\n"` as a single boundary; a trailing boundary produces no final
empty line, and the empty string yields no lines. -/
def pySplitlinesL (s : List Char) : List (List Char) :=
  pySplitlinesF (s.length + 1) s

/-! ### Python `str.strip` / `str.rstrip` -/

/-- Python `str.strip()`: drop whitespace from both ends. -/
def pyStripL (l : List Char) : List Char :=
  ((l.dropWhile pyIsSpace).reverse.dropWhile pyIsSpace).reverse

/-- Python `str.rstrip("  ")`: drop space characters from the right end
(the argument of `rstrip` is read as a set of characters). -/
def rstripSp (l : List Char) : List Char :=
  (l.reverse.dropWhile (fun c => c == ' ')).reverse

/-! ### The graveyard store (`graveyard.py`)

The log file is modelled as `Option String`: `none` when `GRAVEYARD.md`
does not exist, `some content` when it exists with that content.
`str(date.today())` is passed in as an explicit `today` parameter. -/

/-- The fixed `GRAVEYARD_HEADER` written on creation. -/
def GRAVEYARD_HEADER : String :=
  "# 🪦 GRAVEYARD.md\n\n*Here lie the fallen code, remembered but no longer needed.*\n\n---\n"

/-- Content of the log after `ensure_graveyard`: the old content if the
file existed, otherwise the fixed header. -/
def ensureContent (log : Option String) : String :=
  log.getD GRAVEYARD_HEADER

/-- `ensure_graveyard`: create the log with the fixed header if absent,
leave it untouched otherwise. -/
def ensure_graveyard (log : Option String) : Option String :=
  some (ensureContent log)

/-- The `metadata` dict of `append_obituary`: each key either absent or
mapped to a string.  `metadata=None` behaves like the empty dict, i.e.
all fields `none`. -/
structure Meta where
  born : Option String := none
  died : Option String := none
  reason : Option String := none
  last_words : Option String := none

/-- The record delimiter / heading prefix, the string `"\n## "` that
`append_obituary` writes before each filename and `list_obituaries`
splits on (`re.split(r"\n## ", content)`). -/
def mark : List Char := '\n' :: '#' :: '#' :: ' ' :: []

/-- The literal `"**Lived:** "`. -/
def livedLab : List Char := "**Lived:** ".data

/-- The literal `" — "` (spaces around an em dash). -/
def dashSep : List Char := " — ".data

/-- The literal `"  "` (markdown hard-break trailing spaces). -/
def twoSp : List Char := "  ".data

/-- The literal `"**Cause of death:** "`. -/
def causeLab : List Char := "**Cause of death:** ".data

/-- The literal `"**Last words:** `\""`. -/
def lwLab : List Char := "**Last words:** `\"".data

/-- The literal `"...\"`"` closing a last-words quote. -/
def lwEnd : List Char := "...\"`".data

/-- The literal `"---"` (horizontal rule). -/
def threeDash : List Char := "---".data

/-- The fallback strings of `append_obituary`'s metadata lookups. -/
def unknownLower : String := "unknown"

/-- Fallback for a missing `reason` entry. -/
def unknownCap : String := "Unknown"

/-- The empty string (fallback for a missing `last_words` entry). -/
def emptyStr : String := ""

/-- The `"**Lived:** {born} — {died}  "` line (without its newline). -/
def livedLineL (born died : List Char) : List Char :=
  livedLab ++ born ++ dashSep ++ died ++ twoSp

/-- The `"**Cause of death:** {reason}  "` line (without its newline). -/
def causeLineL (reason : List Char) : List Char :=
  causeLab ++ reason ++ twoSp

/-- The `"**Last words:** `\"{last_words[:80]}...\"`"` line (without its
newline). -/
def lwLineL (lw : List Char) : List Char :=
  lwLab ++ lw.take 80 ++ lwEnd

/-- One obituary body line as written by `append_obituary`, without the
terminating newline: `"> {line}"` when the line has non-whitespace
content, a bare `">"` otherwise. -/
def chunkLine (l : List Char) : List Char :=
  if (pyStripL l).isEmpty then '>' :: [] else '>' :: ' ' :: l

/-- The blockquoted obituary body: every line of
`obituary.splitlines()` wrapped by `chunkLine` and terminated by a
newline. -/
def bodyBlockL (ob : List Char) : List Char :=
  ((pySplitlinesL ob).map (fun l => chunkLine l ++ '\n' :: [])).flatten

/-- The part of a formatted record after the `"\n## "` heading prefix:
filename line, `Lived` line, `Cause of death` line, optional
`Last words` line, a blank line, the blockquoted body, and the
`"\n---\n"` terminator.  Concatenating `mark` in front gives exactly
the `entry` string built by `append_obituary`. -/
def entryRestL (fn born died reason lw ob : List Char) : List Char :=
  fn ++ '\n' ::
    (livedLineL born died ++ '\n' ::
      (causeLineL reason ++ '\n' ::
        ((if lw.isEmpty then [] else lwLineL lw ++ '\n' :: []) ++
          ('\n' :: (bodyBlockL ob ++ '\n' :: (threeDash ++ '\n' :: []))))))

/-- The full formatted record text (`entry` in `append_obituary`). -/
def entryL (fn born died reason lw ob : List Char) : List Char :=
  mark ++ entryRestL fn born died reason lw ob

/-- The formatted record after its `"\n## "` prefix, seen as a list of
newline-terminated lines (`entryRestL` is their concatenation). -/
def entryLines (fn born died reason lw ob : List Char) : List (List Char) :=
  [fn, livedLineL born died, causeLineL reason] ++
    (if lw.isEmpty then [] else [lwLineL lw]) ++
    [[]] ++ (pySplitlinesL ob).map chunkLine ++ [[], threeDash]

/-- `l` is free of Python line-boundary characters. -/
def noLBL (l : List Char) : Prop := ∀ c ∈ l, isLB c = false

instance noLBL.decidable (l : List Char) : Decidable (noLBL l) :=
  List.decidableBAll _ l

/-- `append_obituary repo_root filename obituary metadata`: ensure the
log exists, format the record (with the documented fallbacks for absent
metadata), append it, and return the appended text.  The result is the
pair (returned text, new log state). -/
def append_obituary (log : Option String) (filename obituary : String)
    (meta : Meta) (today : String) : String × Option String :=
  let base := ensureContent log
  let entry := String.mk (entryL filename.data
    (meta.born.getD unknownLower).data
    (meta.died.getD today).data
    (meta.reason.getD unknownCap).data
    (meta.last_words.getD emptyStr).data
    obituary.data)
  (entry, some (base ++ entry))

/-! #### Parsing the log back (`list_obituaries`) -/

/-- Fuel-driven worker: split on every occurrence of `"\n## "`,
scanning left to right, non-overlapping (the semantics of
`re.split(r"\n## ", content)`). -/
def splitGF : Nat → List Char → List (List Char)
  | 0, s => [s]
  | _ + 1, [] => [[]]
  | f + 1, c :: rest =>
    if mark.isPrefixOf (c :: rest) then [] :: splitGF f (rest.drop 3)
    else consHead c (splitGF f rest)

/-- `re.split(r"\n## ", content)` over the log content. -/
def splitG (s : List Char) : List (List Char) :=
  splitGF (s.length + 1) s

/-- The regex-`match` pattern `"\*\*Lived:\*\*"` (the literal before the
captured group). -/
def livedPat : List Char := "**Lived:**".data

/-- The regex-`match` pattern `"\*\*Cause of death:\*\*"`. -/
def causePat : List Char := "**Cause of death:**".data

/-- `re.match(r"<label>\s*(.+)", line)`: the label literal at the start
of the line, then greedy `\s*`, then a non-empty captured group.  When
everything after the label is whitespace, backtracking gives the group
exactly the last character. -/
def labelMatch (pat line : List Char) : Option (List Char) :=
  match stripPre pat line with
  | none => none
  | some rest =>
    if rest.isEmpty then none
    else
      let ws := rest.takeWhile pyIsSpace
      if ws.length = rest.length then some (rest.drop (rest.length - 1))
      else some (rest.dropWhile pyIsSpace)

/-- `re.match(r"^>\s?(.*)", line)`: a `>` at the start of the line, one
optional whitespace character, and the rest as the captured group. -/
def bodyMatch (line : List Char) : Option (List Char) :=
  match line with
  | '>' :: rest =>
    match rest with
    | c :: r2 => if pyIsSpace c then some r2 else some rest
    | [] => some []
  | _ => none

/-- Parsing state for one record section: the `lived` and `cause`
variables (reassigned on every matching line, so the last match wins)
and the accumulated blockquote body lines. -/
structure PAcc where
  lived : List Char
  cause : List Char
  body : List (List Char)

/-- One step of `list_obituaries`' line loop (the
`if lived_match: ... elif cause_match: ... elif body_match: ...`
chain). -/
def pstep (acc : PAcc) (line : List Char) : PAcc :=
  match labelMatch livedPat line with
  | some g => { acc with lived := rstripSp (pyStripL g) }
  | none =>
    match labelMatch causePat line with
    | some g => { acc with cause := rstripSp (pyStripL g) }
    | none =>
      match bodyMatch line with
      | some g => { acc with body := acc.body ++ [g] }
      | none => acc

/-- One parsed obituary record (the dict appended by
`list_obituaries`). -/
structure Obit where
  filename : String
  lived : String
  cause : String
  body : String
deriving DecidableEq, Repr

/-- The single-space separator used by `" ".join(body_lines)`. -/
def spaceSep : List Char := " ".data

/-- Parse one section produced by the `"\n## "` split: skip it when it
has no lines, otherwise take the first line (stripped) as the filename,
scan the remaining lines for `Lived` / `Cause of death` / blockquote
lines, and join the body lines with single spaces. -/
def parseSection (sec : List Char) : Option Obit :=
  match pySplitlinesL sec with
  | [] => none
  | l0 :: rest =>
    let acc := rest.foldl pstep ⟨[], [], []⟩
    some
      { filename := String.mk (pyStripL l0)
        lived := String.mk acc.lived
        cause := String.mk acc.cause
        body := String.mk (pyStripL (List.intercalate spaceSep acc.body)) }

/-- The record that parsing a freshly formatted entry section yields:
stripped filename, and `lived` / `cause` / `body` from the line fold
(`pySplitlinesL (entryRestL ...) = entryLines ...` under the no-line-
boundary hypotheses proved below). -/
def entryRecord (fn born died reason lw ob : List Char) : Obit :=
  { filename := String.mk (pyStripL fn)
    lived := String.mk (((entryLines fn born died reason lw ob).drop 1).foldl
      pstep ⟨[], [], []⟩).lived
    cause := String.mk (((entryLines fn born died reason lw ob).drop 1).foldl
      pstep ⟨[], [], []⟩).cause
    body := String.mk (pyStripL (List.intercalate spaceSep
      (((entryLines fn born died reason lw ob).drop 1).foldl
        pstep ⟨[], [], []⟩).body)) }

/-- `list_obituaries`: empty when the log is absent; otherwise split the
content on `"\n## "`, drop the header section, and parse each remaining
section into a record. -/
def list_obituaries (log : Option String) : List Obit :=
  match log with
  | none => []
  | some content => ((splitG content.data).drop 1).filterMap parseSection

/-- The placeholder message returned by `read_graveyard` when the log is
absent. -/
def noGraveyardMsg : String := "No GRAVEYARD.md found. No code has been mourned yet."

/-- `read_graveyard`: full content, or the placeholder message. -/
def read_graveyard (log : Option String) : String :=
  match log with
  | none => noGraveyardMsg
  | some content => content

/-! ### The symbol extractor (`analyzer.py`, `extract_symbols`)

`extract_symbols` runs two `re.findall` scans with `re.MULTILINE`:

* `^\s*(?:async\s+)?def\s+([a-zA-Z_][a-zA-Z0-9_]*)\s*\(`
* `^\s*class\s+([a-zA-Z_][a-zA-Z0-9_]*)\s*[\(:]`

Both patterns alternate literals with whitespace classes whose character
sets are disjoint from the characters that may follow them, so greedy
maximal-munch matching is equivalent to the backtracking search; the
matchers below implement that.  `findall` scans left to right for
non-overlapping matches; with `re.MULTILINE`, `^` restricts the start of
a match to position 0 or a position just after `'\n'`. -/

/-- First character of an identifier: `[a-zA-Z_]`. -/
def isIdStart (c : Char) : Bool :=
  (decide ('a' ≤ c) && decide (c ≤ 'z')) || (decide ('A' ≤ c) && decide (c ≤ 'Z')) || c == '_'

/-- Continuation character of an identifier: `[a-zA-Z0-9_]`. -/
def isIdCont (c : Char) : Bool :=
  isIdStart c || (decide ('0' ≤ c) && decide (c ≤ '9'))

/-- The literal `"def"`. -/
def defKw : List Char := "def".data

/-- The literal `"class"`. -/
def classKw : List Char := "class".data

/-- The literal `"async"`. -/
def asyncKw : List Char := "async".data

/-- Consume an identifier `[a-zA-Z_][a-zA-Z0-9_]*` greedily. -/
def munchId : List Char → Option (List Char × List Char)
  | [] => none
  | c :: rest =>
    if isIdStart c then some (c :: rest.takeWhile isIdCont, rest.dropWhile isIdCont)
    else none

/-- The optional group `(?:async\s+)?`: consume `"async"` followed by at
least one whitespace character when present, otherwise consume
nothing.  (If `"async"` is present but not followed by whitespace, the
group cannot participate in any match and is skipped.) -/
def tryAsync (cs : List Char) : List Char :=
  match stripPre asyncKw cs with
  | some r =>
    match r.head? with
    | some c => if pyIsSpace c then r.dropWhile pyIsSpace else cs
    | none => cs
  | none => cs

/-- Attempt the function-declaration pattern at the current position
(after the `^` anchor): `\s*(?:async\s+)?def\s+(id)\s*\(`.  On success,
return the captured identifier and the rest of the input after the
match. -/
def matchDefAt (cs : List Char) : Option (List Char × List Char) :=
  let r1 := cs.dropWhile pyIsSpace
  let r2 := tryAsync r1
  match stripPre defKw r2 with
  | none => none
  | some r3 =>
    match r3.head? with
    | some c =>
      if pyIsSpace c then
        let r4 := r3.dropWhile pyIsSpace
        match munchId r4 with
        | none => none
        | some (id, r5) =>
          let r6 := r5.dropWhile pyIsSpace
          if r6.head? == some '(' then some (id, r6.tail) else none
      else none
    | none => none

/-- Attempt the class-declaration pattern at the current position:
`\s*class\s+(id)\s*[\(:]`. -/
def matchClassAt (cs : List Char) : Option (List Char × List Char) :=
  let r1 := cs.dropWhile pyIsSpace
  match stripPre classKw r1 with
  | none => none
  | some r2 =>
    match r2.head? with
    | some c =>
      if pyIsSpace c then
        let r3 := r2.dropWhile pyIsSpace
        match munchId r3 with
        | none => none
        | some (id, r4) =>
          let r5 := r4.dropWhile pyIsSpace
          if r5.head? == some '(' || r5.head? == some ':' then some (id, r5.tail)
          else none
      else none
    | none => none

/-- Fuel-driven `re.findall` scan: try the matcher `m` at every
position that is a line start (position 0, or just after `'\n'`);
on a match, record the match position and the captured identifier and
resume after the match (both matchers end by consuming `'('` or `':'`,
so the position after a match is never a line start). -/
def scanF (m : List Char → Option (List Char × List Char)) :
    Nat → List Char → Bool → Nat → List (Nat × List Char)
  | 0, _, _, _ => []
  | _ + 1, [], _, _ => []
  | f + 1, c :: rest, atLS, pos =>
    if atLS then
      match m (c :: rest) with
      | some (id, r) => (pos, id) :: scanF m f r false (pos + (rest.length + 1 - r.length))
      | none => scanF m f rest (c == '\n') (pos + 1)
    else scanF m f rest (c == '\n') (pos + 1)

/-- All `def`-pattern matches of a text, with their start positions. -/
def defMatches (content : String) : List (Nat × List Char) :=
  scanF matchDefAt (content.data.length + 1) content.data true 0

/-- All `class`-pattern matches of a text, with their start
positions. -/
def classMatches (content : String) : List (Nat × List Char) :=
  scanF matchClassAt (content.data.length + 1) content.data true 0

/-- The result of `extract_symbols`: the two identifier lists. -/
structure SymbolSet where
  functions : List String
  classes : List String
deriving DecidableEq, Repr

/-- `extract_symbols(content)`: the identifiers captured by the two
`re.findall` scans, in match order. -/
def extract_symbols (content : String) : SymbolSet :=
  { functions := (defMatches content).map (fun p => String.mk p.2)
    classes := (classMatches content).map (fun p => String.mk p.2) }

/-! ### The obituary composer (`analyzer.py`) -/

/-- `os.path.splitext(p)[1]` (posix rules): the extension starts at the
last dot, provided it comes after the last `/` and some earlier
character of the basename is not a dot (so dotfiles have no
extension).  Returns the extension including its dot, or `[]`. -/
def splitextExt (p : List Char) : List Char :=
  let sepIdx : Int := match (p.reverse.indexOf? '/') with
    | some j => (p.length : Int) - 1 - (j : Int)
    | none => -1
  let dotIdx : Int := match (p.reverse.indexOf? '.') with
    | some j => (p.length : Int) - 1 - (j : Int)
    | none => -1
  if sepIdx < dotIdx then
    if (List.range p.length).any (fun i =>
        decide (sepIdx < (i : Int)) && decide ((i : Int) < dotIdx) &&
          !(p.getD i '.' == '.')) then
      p.drop dotIdx.toNat
    else []
  else []

/-- `str.lower()` on an extension (ASCII case folding). -/
def lowerAll (l : List Char) : List Char := l.map Char.toLower

/-- The `ext_roles` table of `generate_template_obituary`, with its
default `"contributed to the project"`. -/
def roleFor (ext : List Char) : List Char :=
  if ext = ".py".data then "faithfully served the Python runtime".data
  else if ext = ".js".data then "brought interactivity to the browser".data
  else if ext = ".ts".data then "ensured type safety across the codebase".data
  else if ext = ".java".data then "upheld the Java virtual machine's grand tradition".data
  else if ext = ".rb".data then "embraced the principle of programmer happiness".data
  else if ext = ".go".data then "kept concurrency simple and efficient".data
  else if ext = ".rs".data then "compiled without fear of memory errors".data
  else if ext = ".sh".data then "automated the mundane so humans didn't have to".data
  else if ext = ".sql".data then "guarded the sanctity of relational data".data
  else if ext = ".css".data then "kept the UI beautiful and consistent".data
  else if ext = ".html".data then "structured content for the world to see".data
  else "contributed to the project".data

/-- Python truthiness of an optional string: `None` and `""` are falsy. -/
def optTruthy (o : Option String) : Bool :=
  match o with
  | none => false
  | some s => !s.isEmpty

/-- The lifetime clause: `" from {born} to {died}"` when both are
truthy, `" until {died}"` when only `died` is, else empty. -/
def gtoLifetime (born died : Option String) : List Char :=
  if optTruthy born && optTruthy died then
    " from ".data ++ (born.getD emptyStr).data ++ " to ".data ++ (died.getD emptyStr).data
  else if optTruthy died then
    " until ".data ++ (died.getD emptyStr).data
  else []

/-- The cause clause: `" due to: {reason}"` when truthy, else the fixed
phrase. -/
def gtoCause (reason : Option String) : List Char :=
  if optTruthy reason then " due to: ".data ++ (reason.getD emptyStr).data
  else " in the natural course of refactoring".data

/-- The separator of `'`, `'.join(...)`. -/
def joinSepBQ : String := "`, `"

/-- The survivor clause naming up to three symbols (classes before
functions). -/
def gtoSurvivor (allSymbols : List String) : List Char :=
  if allSymbols.isEmpty then []
  else
    " It is survived by the memories of `".data ++
      (String.intercalate joinSepBQ (allSymbols.take 3)).data ++ "`.".data

/-- The last-words clause: first stripped line that is non-empty and
does not start with `#`, truncated to 60 characters. -/
def gtoLastWords (lines : List (List Char)) : List Char :=
  let nonEmpty := (lines.map pyStripL).filter
    (fun s => !s.isEmpty && !(s.head? == some '#'))
  match nonEmpty with
  | [] => []
  | s :: _ => "\n\n*Last words: \"".data ++ s.take 60 ++ "...\"*".data

/-- `generate_template_obituary(filename, content, born, died, reason)`:
the deterministic fallback obituary. -/
def generate_template_obituary (filename content : String)
    (born died reason : Option String) : String :=
  let symbols := extract_symbols content
  let lines := pySplitlinesL content.data
  let ext := lowerAll (splitextExt filename.data)
  let allSymbols := symbols.classes ++ symbols.functions
  String.mk (filename.data ++ ' ' ::
    (roleFor ext ++ gtoLifetime born died ++ ", spanning ".data ++
      (Nat.repr lines.length).data ++ " lines of code. It was deleted".data ++
      gtoCause reason ++ '.' ::
        (gtoSurvivor allSymbols ++ gtoLastWords lines)))

/-- The fixed prefix of the note appended when the AI call fails:
`"\n\n*(AI obituary unavailable: "`. -/
def aiNotePre : String := "\n\n*(AI obituary unavailable: "

/-- The closing `")*"` of the unavailability note. -/
def aiNotePost : String := ")*"

/-- `_generate_ai_obituary`: the whole `try` body is an interaction
with the external service, modelled by the oracle `svc` — `ok text`
when `client.messages.create(...)` returns `text`, `error e` when any
exception with message `e` is raised (import failure, auth failure,
timeout, malformed response, ...).  On success the service text is
returned stripped; on any exception the template obituary is returned
with the unavailability note appended. -/
def _generate_ai_obituary (svc : Except String String)
    (filename content : String) (reason born died : Option String) : String :=
  match svc with
  | Except.ok t => String.mk (pyStripL t.data)
  | Except.error e =>
    generate_template_obituary filename content born died reason ++
      aiNotePre ++ e ++ aiNotePost

/-- `generate_obituary`: dispatch on the truthiness of the
`ANTHROPIC_API_KEY` environment variable (`env`): delegate to the AI
path when set and non-empty, otherwise return the template obituary
directly. -/
def generate_obituary (env : Option String) (svc : Except String String)
    (filename content : String) (reason born died : Option String) : String :=
  if optTruthy env then _generate_ai_obituary svc filename content reason born died
  else generate_template_obituary filename content born died reason

/-! ### Concrete sample values used in claim statements and witnesses -/

/-- The born date of the round-trip test. -/
def d2020 : String := "2020-01-01"

/-- The died date of the round-trip test. -/
def d2024 : String := "2024-12-31"

/-- The reason of the round-trip test. -/
def rStr : String := "R"

/-- The text the specification names as the cause-of-death fallback. -/
def deletedCauseUnknown : String := "Deleted (cause unknown)"

/-- The cause-of-death line actually written when `reason` is absent. -/
def causeUnknownLine : String := "**Cause of death:** Unknown  \n"

/-- A sample filename. -/
def sampleFile : String := "old.py"

/-- A sample obituary text. -/
def sampleOb : String := "It served well."

/-- A sample value of `str(date.today())`. -/
def sampleDay : String := "2024-06-01"

/-- A filename padded with spaces (newline-free, but not equal to its
own strip). -/
def paddedFile : String := " x "

/-- The stripped form of `paddedFile`. -/
def strippedFile : String := "x"

/-- A sample service exception message. -/
def errBoom : String := "boom"

/-- A sample non-empty API key. -/
def apiKeySample : String := "key"

/-- A sample content with no declaration-shaped text. -/
def plainContent : String := "x = 1 + y"

/-- The placeholder fragment named by the specification. -/
def noGraveyardPat : String := "No GRAVEYARD.md found"

/-- The `lived` field parsed back from the round-trip record. -/
def livedParsed : String := "2020-01-01 — 2024-12-31"

/-! ## Lemmas -/

/-! ### `consHead` -/

theorem consHead_ne_nil (c : Char) (l : List (List Char)) : consHead c l ≠ [] := by
  cases l <;> simp [consHead]

theorem consHead_append (c : Char) (l l' : List (List Char)) (h : l ≠ []) :
    consHead c (l ++ l') = consHead c l ++ l' := by
  cases l with
  | nil => exact absurd rfl h
  | cons x t => simp [consHead]

/-! ### `pySplitlinesL` -/

theorem pySplitlinesF_fuel : ∀ f g : Nat, ∀ s : List Char,
    s.length < f → s.length < g → pySplitlinesF f s = pySplitlinesF g s := by
  intro f
  induction f with
  | zero => intro g s h; omega
  | succ f ih =>
    intro g s hf hg
    match g, s with
    | g + 1, [] => rfl
    | g + 1, c :: rest =>
      simp only [pySplitlinesF]
      by_cases h1 : (c == '\r' && rest.head? == some '\n') = true
      · rw [h1]
        simp only [if_true]
        have hr : rest ≠ [] := by
          intro hnil
          rw [hnil] at h1
          simp at h1
        have hlen : rest.tail.length = rest.length - 1 := by
          cases rest with
          | nil => exact absurd rfl hr
          | cons a t => simp
        have : rest.tail.length < f := by
          simp at hf; omega
        have : rest.tail.length < g := by
          simp at hg; omega
        rw [ih g rest.tail (by omega) (by omega)]
      · simp only [Bool.not_eq_true] at h1
        rw [h1]
        simp only [Bool.false_eq_true, if_false]
        have hf' : rest.length < f := by simp at hf; omega
        have hg' : rest.length < g := by simp at hg; omega
        rw [ih g rest hf' hg']

theorem pySplitlinesL_nil : pySplitlinesL [] = [] := rfl

theorem pySplitlinesL_cons (c : Char) (rest : List Char) :
    pySplitlinesL (c :: rest) =
      if c == '\r' && rest.head? == some '\n' then [] :: pySplitlinesL rest.tail
      else if isLB c then [] :: pySplitlinesL rest
      else consHead c (pySplitlinesL rest) := by
  show pySplitlinesF (rest.length + 1 + 1) (c :: rest) = _
  simp only [pySplitlinesF]
  by_cases h1 : (c == '\r' && rest.head? == some '\n') = true
  · rw [h1]
    simp only [if_true]
    have hr : rest ≠ [] := by
      intro hnil; rw [hnil] at h1; simp at h1
    have : rest.tail.length < rest.length + 1 := by
      cases rest with
      | nil => exact absurd rfl hr
      | cons a t => simp; omega
    rw [pySplitlinesF_fuel (rest.length + 1) (rest.tail.length + 1) rest.tail this
      (Nat.lt_succ_self _)]
    rfl
  · simp only [Bool.not_eq_true] at h1
    rw [h1]
    rfl

theorem pySplitlinesL_ne_nil (s : List Char) (h : s ≠ []) : pySplitlinesL s ≠ [] := by
  cases s with
  | nil => exact absurd rfl h
  | cons c rest =>
    rw [pySplitlinesL_cons]
    split
    · simp
    · split
      · simp
      · exact consHead_ne_nil c _

/-- Every line produced by `str.splitlines` is free of line-boundary
characters. -/
theorem pySplitlinesL_noLB (s : List Char) :
    ∀ l ∈ pySplitlinesL s, ∀ c ∈ l, isLB c = false := by
  suffices h : ∀ f s, ∀ l ∈ pySplitlinesF f s, ∀ c ∈ l, isLB c = false from
    h (s.length + 1) s
  intro f
  induction f with
  | zero => intro s l hl; simp [pySplitlinesF] at hl
  | succ f ih =>
    intro s l hl
    match s with
    | [] => simp [pySplitlinesF] at hl
    | c :: rest =>
      simp only [pySplitlinesF] at hl
      by_cases h1 : (c == '\r' && rest.head? == some '\n') = true
      · rw [h1] at hl
        simp only [if_true, List.mem_cons] at hl
        rcases hl with h | h
        · subst h; intro c hc; simp at hc
        · exact ih rest.tail l h
      · simp only [Bool.not_eq_true] at h1
        rw [h1] at hl
        simp only [Bool.false_eq_true, if_false] at hl
        by_cases h2 : isLB c = true
        · rw [h2] at hl
          simp only [if_true, List.mem_cons] at hl
          rcases hl with h | h
          · subst h; intro c hc; simp at hc
          · exact ih rest l h
        · simp only [Bool.not_eq_true] at h2
          rw [h2] at hl
          simp only [Bool.false_eq_true, if_false] at hl
          rcases hrec : pySplitlinesF f rest with _ | ⟨h0, t0⟩
          · rw [hrec] at hl
            simp only [consHead, List.mem_cons] at hl
            rcases hl with h | h
            · subst h
              intro d hd
              simp only [List.mem_singleton] at hd
              subst hd; exact h2
            · simp at h
          · rw [hrec] at hl
            simp only [consHead, List.mem_cons] at hl
            rcases hl with h | h
            · subst h
              intro d hd
              simp only [List.mem_cons] at hd
              rcases hd with h | h
              · subst h; exact h2
              · exact ih rest h0 (by rw [hrec]; simp) d h
            · exact ih rest l (by rw [hrec]; simp [h])

/-- Splitting `a ++ "\n" ++ b` when `a` has no line boundary: the first
line is `a` and the rest are the lines of `b`. -/
theorem pySplitlinesL_append_nl (a b : List Char)
    (ha : ∀ c ∈ a, isLB c = false) :
    pySplitlinesL (a ++ '\n' :: b) = a :: pySplitlinesL b := by
  induction a with
  | nil =>
    rw [List.nil_append, pySplitlinesL_cons]
    have h1 : ('\n' == '\r') = false := rfl
    simp [h1, isLB]
  | cons c a ih =>
    have hc : isLB c = false := ha c (by simp)
    have hcr : (c == '\r') = false := by
      cases h : c == '\r'
      · rfl
      · exfalso
        have : c = '\r' := by
          have := of_decide_eq_true h
          exact this
        rw [this] at hc
        simp [isLB] at hc
    rw [List.cons_append, pySplitlinesL_cons]
    have ha' : ∀ d ∈ a, isLB d = false := fun d hd => ha d (by simp [hd])
    rw [ih ha']
    simp [hcr, hc, consHead]

/-- Splitting `a ++ "\n"` when `a` has no line boundary: exactly the
single line `a`. -/
theorem pySplitlinesL_line (a : List Char) (ha : ∀ c ∈ a, isLB c = false) :
    pySplitlinesL (a ++ '\n' :: []) = [a] := by
  rw [pySplitlinesL_append_nl a [] ha, pySplitlinesL_nil]

/-! ### `hasSub` -/

/-- `hasSub` is substring (contiguous sublist) occurrence. -/
theorem hasSub_eq_true_iff (pat s : List Char) : hasSub pat s = true ↔ pat <:+: s := by
  induction s with
  | nil =>
    simp only [hasSub, List.isPrefixOf_iff_prefix]
    constructor
    · exact fun h => h.isInfix
    · intro h
      rcases h with ⟨u, v, huv⟩
      have hlen := congrArg List.length huv
      simp only [List.length_append, List.length_nil] at hlen
      have hp : pat = [] := List.length_eq_zero.mp (by omega)
      simp [hp]
  | cons c rest ih =>
    simp only [hasSub, Bool.or_eq_true, List.isPrefixOf_iff_prefix, ih]
    exact (List.infix_cons_iff).symm

theorem ne_nl_of_noLB (c : Char) (h : isLB c = false) : c ≠ '\n' := by
  intro hc
  rw [hc] at h
  simp [isLB] at h

theorem hasSub_mark_cons (c : Char) (t : List Char) (h : c ≠ '\n') :
    hasSub mark (c :: t) = hasSub mark t := by
  have hb : ('\n' == c) = false := by
    simp [Ne.symm h]
  simp [hasSub, mark, List.isPrefixOf, hb]

theorem hasSub_mark_append (a t : List Char) (ha : ∀ c ∈ a, c ≠ '\n') :
    hasSub mark (a ++ t) = hasSub mark t := by
  induction a with
  | nil => rfl
  | cons c a ih =>
    rw [List.cons_append, hasSub_mark_cons c _ (ha c (by simp))]
    exact ih (fun d hd => ha d (by simp [hd]))

theorem hasSub_mark_nl (t : List Char) :
    hasSub mark ('\n' :: t) =
      (('#' :: '#' :: ' ' :: []).isPrefixOf t || hasSub mark t) := by
  simp [hasSub, mark, List.isPrefixOf]

theorem hashes_isPrefixOf_false (c : Char) (t : List Char) (h : c ≠ '#') :
    ('#' :: '#' :: ' ' :: []).isPrefixOf (c :: t) = false := by
  have hb : ('#' == c) = false := by simp [Ne.symm h]
  simp [List.isPrefixOf, hb]

/-- If a line does not start with `"## "`, neither does that line with
a newline and more text appended. -/
theorem hashes_isPrefixOf_line (l t : List Char)
    (h : ('#' :: '#' :: ' ' :: []).isPrefixOf l = false) :
    ('#' :: '#' :: ' ' :: []).isPrefixOf (l ++ '\n' :: t) = false := by
  match l with
  | [] => simp [List.isPrefixOf]
  | [a] =>
    simp only [List.cons_append, List.nil_append, List.isPrefixOf]
    simp
  | [a, b] =>
    simp only [List.cons_append, List.nil_append, List.isPrefixOf]
    simp
  | a :: b :: c :: l' =>
    simp only [List.isPrefixOf] at h ⊢
    simpa using h

/-- A document made of newline-terminated lines, none of which contains
a newline, and none of which (after the first) starts with `"## "`,
contains no occurrence of the record delimiter `"\n## "`. -/
theorem hasSub_mark_linesDoc (ls : List (List Char))
    (h1 : ∀ l ∈ ls, ∀ c ∈ l, c ≠ '\n')
    (h2 : ∀ l ∈ ls.drop 1, ('#' :: '#' :: ' ' :: []).isPrefixOf l = false) :
    hasSub mark ((ls.map (fun l => l ++ '\n' :: [])).flatten) = false := by
  induction ls with
  | nil => rfl
  | cons l ls ih =>
    simp only [List.map_cons, List.flatten_cons, List.append_assoc, List.cons_append,
      List.nil_append]
    rw [hasSub_mark_append l _ (h1 l (by simp)), hasSub_mark_nl]
    have hrest : hasSub mark ((ls.map (fun l => l ++ '\n' :: [])).flatten) = false := by
      refine ih (fun x hx => h1 x (by simp [hx])) ?_
      intro x hx
      refine h2 x ?_
      rcases ls with _ | ⟨y, ys⟩
      · simp at hx
      · simp only [List.drop_one, List.tail_cons] at hx
        simp [hx]
    rw [hrest]
    rcases ls with _ | ⟨l2, ls2⟩
    · simp [List.isPrefixOf]
    · simp only [List.map_cons, List.flatten_cons, List.append_assoc, List.cons_append]
      rw [hashes_isPrefixOf_line l2 _ (h2 l2 (by simp))]
      rfl

/-! ### `splitG` -/

theorem splitGF_fuel : ∀ f g : Nat, ∀ s : List Char,
    s.length < f → s.length < g → splitGF f s = splitGF g s := by
  intro f
  induction f with
  | zero => intro g s h; omega
  | succ f ih =>
    intro g s hf hg
    match g, s with
    | g + 1, [] => rfl
    | g + 1, c :: rest =>
      simp only [splitGF]
      by_cases hp : mark.isPrefixOf (c :: rest) = true
      · rw [hp]
        simp only [if_true]
        have h3 : (rest.drop 3).length ≤ rest.length := by
          rw [List.length_drop]; omega
        have hlf : (rest.drop 3).length < f := by simp at hf; omega
        have hlg : (rest.drop 3).length < g := by simp at hg; omega
        rw [ih g (rest.drop 3) hlf hlg]
      · simp only [Bool.not_eq_true] at hp
        rw [hp]
        simp only [Bool.false_eq_true, if_false]
        have hlf : rest.length < f := by simp at hf; omega
        have hlg : rest.length < g := by simp at hg; omega
        rw [ih g rest hlf hlg]

theorem splitG_nil : splitG [] = [[]] := rfl

theorem splitG_cons (c : Char) (rest : List Char) :
    splitG (c :: rest) =
      if mark.isPrefixOf (c :: rest) then [] :: splitG (rest.drop 3)
      else consHead c (splitG rest) := by
  show splitGF (rest.length + 1 + 1) (c :: rest) = _
  simp only [splitGF]
  by_cases hp : mark.isPrefixOf (c :: rest) = true
  · rw [hp]
    simp only [if_true]
    have h3 : (rest.drop 3).length ≤ rest.length := by
      rw [List.length_drop]; omega
    rw [splitGF_fuel (rest.length + 1) ((rest.drop 3).length + 1) (rest.drop 3)
      (by omega) (Nat.lt_succ_self _)]
    rfl
  · simp only [Bool.not_eq_true] at hp
    rw [hp]
    rfl

theorem splitG_ne_nil (s : List Char) : splitG s ≠ [] := by
  cases s with
  | nil => simp [splitG_nil]
  | cons c rest =>
    rw [splitG_cons]
    split
    · simp
    · exact consHead_ne_nil c _

/-- A text without the record delimiter is a single section. -/
theorem splitG_noSub (s : List Char) (h : hasSub mark s = false) :
    splitG s = [s] := by
  induction s with
  | nil => rfl
  | cons c rest ih =>
    simp only [hasSub, Bool.or_eq_false_iff] at h
    rw [splitG_cons, h.1]
    simp only [Bool.false_eq_true, if_false]
    rw [ih h.2]
    rfl

theorem mark_isPrefixOf_append (x : List Char) :
    mark.isPrefixOf (mark ++ x) = true :=
  List.isPrefixOf_iff_prefix.mpr (List.prefix_append mark x)

/-- No occurrence of the delimiter can straddle the boundary between a
text and an appended delimiter: `"\n## "` begins with `'\n'`, but none
of its proper suffixes does. -/
theorem mark_isPrefixOf_boundary (s t : List Char) (hne : s ≠ [])
    (h : mark.isPrefixOf s = false) :
    mark.isPrefixOf (s ++ mark ++ t) = false := by
  match s with
  | [a] =>
    simp only [mark, List.cons_append, List.nil_append, List.isPrefixOf]
    simp
  | [a, b] =>
    simp only [mark, List.cons_append, List.nil_append, List.isPrefixOf]
    simp
  | [a, b, c] =>
    simp only [mark, List.cons_append, List.nil_append, List.isPrefixOf]
    simp
  | a :: b :: c :: d :: s' =>
    simp only [mark, List.isPrefixOf, List.cons_append] at h ⊢
    simpa using h

/-- The central splitting lemma: appending one delimited record section
to any prior content adds exactly that section to the split. -/
theorem splitG_append_mark : ∀ n : Nat, ∀ c r : List Char, c.length ≤ n →
    hasSub mark r = false → splitG (c ++ mark ++ r) = splitG c ++ [r] := by
  intro n
  induction n with
  | zero =>
    intro c r hc hr
    have : c = [] := List.length_eq_zero.mp (Nat.le_zero.mp hc)
    subst this
    simp only [List.nil_append]
    rw [show mark ++ r = '\n' :: ('#' :: '#' :: ' ' :: r) from rfl, splitG_cons]
    have hp : mark.isPrefixOf ('\n' :: '#' :: '#' :: ' ' :: r) = true :=
      mark_isPrefixOf_append r
    rw [hp]
    simp only [if_true, List.drop_succ_cons, List.drop_zero]
    rw [splitG_noSub r hr, splitG_nil]
    rfl
  | succ n ih =>
    intro c r hc hr
    match c with
    | [] =>
      exact ih [] r (by simp) hr
    | c₀ :: cs =>
      by_cases hp : mark.isPrefixOf (c₀ :: cs) = true
      · rcases List.isPrefixOf_iff_prefix.mp hp with ⟨u, hu⟩
        have hlen : u.length + 4 = cs.length + 1 := by
          have := congrArg List.length hu
          simp [mark] at this
          omega
        have hcu : c₀ :: cs = '\n' :: '#' :: '#' :: ' ' :: u := by
          rw [← hu]; rfl
        rw [hcu]
        have lhs1 : ('\n' :: '#' :: '#' :: ' ' :: u) ++ mark ++ r =
            '\n' :: ('#' :: '#' :: ' ' :: (u ++ mark ++ r)) := by
          simp
        rw [lhs1, splitG_cons]
        have hp2 : mark.isPrefixOf ('\n' :: '#' :: '#' :: ' ' :: (u ++ mark ++ r)) = true := by
          have : '\n' :: '#' :: '#' :: ' ' :: (u ++ mark ++ r) = mark ++ (u ++ mark ++ r) := by
            simp [mark]
          rw [this]
          exact mark_isPrefixOf_append _
        rw [hp2]
        simp only [if_true, List.drop_succ_cons, List.drop_zero]
        have hc' : cs.length ≤ n := by simp at hc; omega
        rw [ih u r (by omega) hr]
        rw [splitG_cons]
        have hp3 : mark.isPrefixOf ('\n' :: '#' :: '#' :: ' ' :: u) = true := by
          rw [← hcu]; exact hp
        rw [hp3]
        simp
      · simp only [Bool.not_eq_true] at hp
        have hb : mark.isPrefixOf ((c₀ :: cs) ++ mark ++ r) = false :=
          mark_isPrefixOf_boundary (c₀ :: cs) r (by simp) hp
        have lhs1 : (c₀ :: cs) ++ mark ++ r = c₀ :: (cs ++ mark ++ r) := by simp
        rw [lhs1, splitG_cons]
        rw [lhs1] at hb
        rw [hb]
        simp only [Bool.false_eq_true, if_false]
        rw [ih cs r (by simp at hc; omega) hr]
        rw [consHead_append c₀ _ _ (splitG_ne_nil cs)]
        rw [splitG_cons, hp]
        rfl

/-! ### Structure of a formatted record -/

theorem noLB_append (a b : List Char) (ha : noLBL a) (hb : noLBL b) : noLBL (a ++ b) := by
  intro c hc
  rcases List.mem_append.mp hc with h | h
  · exact ha c h
  · exact hb c h

theorem noLB_take (n : Nat) (l : List Char) (h : noLBL l) : noLBL (l.take n) :=
  fun c hc => h c (List.take_subset n l hc)

theorem noLB_livedLab : noLBL livedLab := by decide

theorem noLB_dashSep : noLBL dashSep := by decide

theorem noLB_twoSp : noLBL twoSp := by decide

theorem noLB_causeLab : noLBL causeLab := by decide

theorem noLB_lwLab : noLBL lwLab := by decide

theorem noLB_lwEnd : noLBL lwEnd := by decide

theorem noLB_threeDash : noLBL threeDash := by decide

theorem noLB_livedLine (born died : List Char) (hb : noLBL born) (hd : noLBL died) :
    noLBL (livedLineL born died) := by
  unfold livedLineL
  exact noLB_append _ _ (noLB_append _ _ (noLB_append _ _
    (noLB_append _ _ noLB_livedLab hb) noLB_dashSep) hd) noLB_twoSp

theorem noLB_causeLine (reason : List Char) (hr : noLBL reason) :
    noLBL (causeLineL reason) := by
  unfold causeLineL
  exact noLB_append _ _ (noLB_append _ _ noLB_causeLab hr) noLB_twoSp

theorem noLB_lwLine (lw : List Char) (hlw : noLBL lw) : noLBL (lwLineL lw) := by
  unfold lwLineL
  exact noLB_append _ _ (noLB_append _ _ noLB_lwLab (noLB_take 80 lw hlw)) noLB_lwEnd

theorem noLB_chunkLine (l : List Char) (h : noLBL l) : noLBL (chunkLine l) := by
  unfold chunkLine
  split
  · decide
  · intro c hc
    simp only [List.mem_cons] at hc
    rcases hc with h1 | h1 | h1
    · subst h1; decide
    · subst h1; decide
    · exact h c h1

/-- All lines of a formatted record are free of line boundaries, given
that the filename and the metadata values are. -/
theorem entryLines_noLB (fn born died reason lw ob : List Char)
    (hfn : noLBL fn) (hb : noLBL born) (hd : noLBL died)
    (hr : noLBL reason) (hlw : noLBL lw) :
    ∀ l ∈ entryLines fn born died reason lw ob, noLBL l := by
  intro l hl
  unfold entryLines at hl
  simp only [List.append_assoc, List.cons_append, List.nil_append, List.mem_cons,
    List.mem_append, List.mem_map, List.mem_singleton] at hl
  rcases hl with h | h | h | h | h | h | h
  · subst h; exact hfn
  · subst h; exact noLB_livedLine born died hb hd
  · subst h; exact noLB_causeLine reason hr
  · rcases (by split at h <;> simp_all : l = lwLineL lw) with h'
    subst h'; exact noLB_lwLine lw hlw
  · subst h; intro c hc; simp at hc
  · rcases h with ⟨x, hx, hxl⟩
    subst hxl
    exact noLB_chunkLine x (fun c hc => pySplitlinesL_noLB ob x hx c hc)
  · rcases h with h | h
    · subst h; intro c hc; simp at hc
    · rcases h with h | h
      · subst h; exact noLB_threeDash
      · simp at h

/-- `entryRestL` is the concatenation of its newline-terminated
lines. -/
theorem entryRest_eq_linesDoc (fn born died reason lw ob : List Char) :
    entryRestL fn born died reason lw ob =
      ((entryLines fn born died reason lw ob).map (fun l => l ++ '\n' :: [])).flatten := by
  unfold entryRestL entryLines bodyBlockL
  by_cases hlw : lw.isEmpty
  · simp [hlw, List.map_append, List.flatten_append, List.map_map, Function.comp_def,
      List.append_assoc]
  · simp [hlw, List.map_append, List.flatten_append, List.map_map, Function.comp_def,
      List.append_assoc]

/-- Splitting a document of boundary-free newline-terminated lines
recovers exactly those lines. -/
theorem pySplitlinesL_linesDoc (ls : List (List Char))
    (h : ∀ l ∈ ls, noLBL l) :
    pySplitlinesL ((ls.map (fun l => l ++ '\n' :: [])).flatten) = ls := by
  induction ls with
  | nil => rfl
  | cons l ls ih =>
    simp only [List.map_cons, List.flatten_cons, List.append_assoc, List.cons_append,
      List.nil_append]
    rw [pySplitlinesL_append_nl l _ (h l (by simp))]
    rw [ih (fun x hx => h x (by simp [hx]))]

/-- The lines of a formatted record (after its `"\n## "` prefix). -/
theorem pySplitlinesL_entryRest (fn born died reason lw ob : List Char)
    (hfn : noLBL fn) (hb : noLBL born) (hd : noLBL died)
    (hr : noLBL reason) (hlw : noLBL lw) :
    pySplitlinesL (entryRestL fn born died reason lw ob) =
      entryLines fn born died reason lw ob := by
  rw [entryRest_eq_linesDoc]
  exact pySplitlinesL_linesDoc _ (entryLines_noLB fn born died reason lw ob hfn hb hd hr hlw)

theorem livedLine_cons (born died : List Char) :
    livedLineL born died = '*' :: ("*Lived:** ".data ++ born ++ dashSep ++ died ++ twoSp) := by
  show ('*' :: "*Lived:** ".data) ++ born ++ dashSep ++ died ++ twoSp = _
  simp

theorem causeLine_cons (reason : List Char) :
    causeLineL reason = '*' :: ("*Cause of death:** ".data ++ reason ++ twoSp) := by
  show ('*' :: "*Cause of death:** ".data) ++ reason ++ twoSp = _
  simp

theorem lwLine_cons (lw : List Char) :
    lwLineL lw = '*' :: ("*Last words:** `\"".data ++ lw.take 80 ++ lwEnd) := by
  show ('*' :: "*Last words:** `\"".data) ++ lw.take 80 ++ lwEnd = _
  simp

theorem chunkLine_cons (l : List Char) : ∃ t, chunkLine l = '>' :: t := by
  unfold chunkLine
  split
  · exact ⟨[], rfl⟩
  · exact ⟨' ' :: l, rfl⟩

/-- No line after the first one of a formatted record starts with
`"## "` (they start with `'*'`, `'>'`, `'-'`, or are empty). -/
theorem entryLines_tail_noHashes (fn born died reason lw ob : List Char) :
    ∀ l ∈ (entryLines fn born died reason lw ob).drop 1,
      ('#' :: '#' :: ' ' :: []).isPrefixOf l = false := by
  intro l hl
  unfold entryLines at hl
  simp only [List.append_assoc, List.cons_append, List.nil_append, List.drop_one,
    List.tail_cons, List.mem_cons, List.mem_append, List.mem_map,
    List.mem_singleton] at hl
  rcases hl with h | h | h | h | h | h
  · subst h
    rw [livedLine_cons]
    exact hashes_isPrefixOf_false _ _ (by decide)
  · subst h
    rw [causeLine_cons]
    exact hashes_isPrefixOf_false _ _ (by decide)
  · rcases (by split at h <;> simp_all : l = lwLineL lw) with h'
    subst h'
    rw [lwLine_cons]
    exact hashes_isPrefixOf_false _ _ (by decide)
  · subst h; rfl
  · rcases h with ⟨x, hx, hxl⟩
    rcases chunkLine_cons x with ⟨t, ht⟩
    subst hxl
    rw [ht]
    exact hashes_isPrefixOf_false _ _ (by decide)
  · rcases h with h | h
    · subst h; rfl
    · rcases h with h | h
      · subst h
        exact hashes_isPrefixOf_false _ _ (by decide)
      · simp at h

/-- A formatted record contains no `"\n## "` other than its leading
one: the body is blockquoted and the metadata lines are newline-free,
so no new split point can appear. -/
theorem entryRest_noMark (fn born died reason lw ob : List Char)
    (hfn : noLBL fn) (hb : noLBL born) (hd : noLBL died)
    (hr : noLBL reason) (hlw : noLBL lw) :
    hasSub mark (entryRestL fn born died reason lw ob) = false := by
  rw [entryRest_eq_linesDoc]
  refine hasSub_mark_linesDoc _ ?_ (entryLines_tail_noHashes fn born died reason lw ob)
  intro l hl c hc
  exact ne_nl_of_noLB c (entryLines_noLB fn born died reason lw ob hfn hb hd hr hlw l hl c hc)

/-! ### Parsing a formatted record -/

theorem labelMatch_none_head (p : Char) (ps line : List Char)
    (h : line.head? ≠ some p) : labelMatch (p :: ps) line = none := by
  cases line with
  | nil => rfl
  | cons d s =>
    have hpd : ¬ p = d := by
      intro he
      exact h (by rw [he]; rfl)
    simp [labelMatch, stripPre, hpd]

theorem livedPat_cons : livedPat = '*' :: "*Lived:**".data := rfl

theorem causePat_cons : causePat = '*' :: "*Cause of death:**".data := rfl

theorem pstep_keep (acc : PAcc) (line : List Char)
    (h1 : labelMatch livedPat line = none)
    (h2 : labelMatch causePat line = none) :
    (pstep acc line).lived = acc.lived ∧ (pstep acc line).cause = acc.cause := by
  unfold pstep
  rw [h1, h2]
  cases bodyMatch line <;> simp

theorem foldl_pstep_keep (ls : List (List Char)) :
    ∀ acc : PAcc,
      (∀ l ∈ ls, labelMatch livedPat l = none ∧ labelMatch causePat l = none) →
      ((ls.foldl pstep acc).lived = acc.lived ∧ (ls.foldl pstep acc).cause = acc.cause) := by
  induction ls with
  | nil => intro acc h; exact ⟨rfl, rfl⟩
  | cons l ls ih =>
    intro acc h
    have hl := h l (by simp)
    have hk := pstep_keep acc l hl.1 hl.2
    have := ih (pstep acc l) (fun x hx => h x (by simp [hx]))
    exact ⟨this.1.trans hk.1, this.2.trans hk.2⟩

/-- Lines after a record's first are never label matches unless they
are the `Lived` / `Cause of death` lines: blockquote lines, blank
lines and the rule line all start with a non-`'*'` character. -/
theorem tailLines_labelNone (ob : List Char) :
    ∀ l ∈ (pySplitlinesL ob).map chunkLine ++ [[], threeDash],
      labelMatch livedPat l = none ∧ labelMatch causePat l = none := by
  intro l hl
  simp only [List.mem_append, List.mem_map, List.mem_cons, List.mem_singleton] at hl
  rcases hl with ⟨x, hx, hxl⟩ | h | h | h
  · rcases chunkLine_cons x with ⟨t, ht⟩
    subst hxl
    rw [ht]
    constructor
    · rw [livedPat_cons]
      exact labelMatch_none_head _ _ _ (by simp)
    · rw [causePat_cons]
      exact labelMatch_none_head _ _ _ (by simp)
  · subst h; exact ⟨rfl, rfl⟩
  · subst h; exact ⟨rfl, rfl⟩
  · simp at h

/-- `parseSection` on a formatted record: the filename is the stripped
first line, and the `lived` / `cause` / `body` fields come from the
fold over the remaining lines. -/
theorem parseSection_entryRest (fn born died reason lw ob : List Char)
    (hfn : noLBL fn) (hb : noLBL born) (hd : noLBL died)
    (hr : noLBL reason) (hlw : noLBL lw) :
    parseSection (entryRestL fn born died reason lw ob) =
      some (entryRecord fn born died reason lw ob) := by
  unfold parseSection entryRecord
  rw [pySplitlinesL_entryRest fn born died reason lw ob hfn hb hd hr hlw]
  have hsh : entryLines fn born died reason lw ob =
      fn :: (entryLines fn born died reason lw ob).drop 1 := by
    unfold entryLines
    simp
  rw [hsh]
  simp

/-! ### Appending a record and re-parsing -/

theorem drop_one_append_singleton (xs : List (List Char)) (y : List Char)
    (h : xs ≠ []) : (xs ++ [y]).drop 1 = xs.drop 1 ++ [y] := by
  cases xs with
  | nil => exact absurd rfl h
  | cons a t => simp

theorem header_noMark : hasSub mark GRAVEYARD_HEADER.data = false := by decide

theorem list_obituaries_ensure (log : Option String) :
    ((splitG (ensureContent log).data).drop 1).filterMap parseSection =
      list_obituaries log := by
  cases log with
  | none =>
    show ((splitG GRAVEYARD_HEADER.data).drop 1).filterMap parseSection = []
    rw [splitG_noSub _ header_noMark]
    rfl
  | some c => rfl

/-- The central store lemma: one `append_obituary` call extends the
parse of the log by exactly one record, namely the parse of the freshly
appended section. -/
theorem list_obituaries_append (log : Option String) (fn ob : String)
    (meta : Meta) (today : String)
    (hfn : noLBL fn.data)
    (hb' : noLBL (meta.born.getD unknownLower).data)
    (hd' : noLBL (meta.died.getD today).data)
    (hr' : noLBL (meta.reason.getD unknownCap).data)
    (hlw' : noLBL (meta.last_words.getD emptyStr).data) :
    list_obituaries (append_obituary log fn ob meta today).2 =
      list_obituaries log ++ [entryRecord fn.data (meta.born.getD unknownLower).data
        (meta.died.getD today).data (meta.reason.getD unknownCap).data
        (meta.last_words.getD emptyStr).data ob.data] := by
  show list_obituaries (some (ensureContent log ++ String.mk (entryL fn.data
      (meta.born.getD unknownLower).data (meta.died.getD today).data
      (meta.reason.getD unknownCap).data (meta.last_words.getD emptyStr).data
      ob.data))) = _
  show ((splitG (ensureContent log ++ String.mk (entryL fn.data
      (meta.born.getD unknownLower).data (meta.died.getD today).data
      (meta.reason.getD unknownCap).data (meta.last_words.getD emptyStr).data
      ob.data)).data).drop 1).filterMap parseSection = _
  have hdata : (ensureContent log ++ String.mk (entryL fn.data
      (meta.born.getD unknownLower).data (meta.died.getD today).data
      (meta.reason.getD unknownCap).data (meta.last_words.getD emptyStr).data
      ob.data)).data =
      (ensureContent log).data ++ mark ++ entryRestL fn.data
        (meta.born.getD unknownLower).data (meta.died.getD today).data
        (meta.reason.getD unknownCap).data (meta.last_words.getD emptyStr).data
        ob.data := by
    rw [String.data_append]
    show _ ++ entryL _ _ _ _ _ _ = _
    rw [entryL, ← List.append_assoc]
  rw [hdata]
  rw [splitG_append_mark (ensureContent log).data.length _ _ (Nat.le_refl _)
    (entryRest_noMark _ _ _ _ _ _ hfn hb' hd' hr' hlw')]
  rw [drop_one_append_singleton _ _ (splitG_ne_nil _)]
  rw [List.filterMap_append]
  rw [list_obituaries_ensure]
  rw [List.filterMap_cons, parseSection_entryRest _ _ _ _ _ _ hfn hb' hd' hr' hlw']
  rfl

theorem hasSub_append_self (p a b : List Char) : hasSub p (a ++ (p ++ b)) = true :=
  (hasSub_eq_true_iff p _).mpr ⟨a, b, by simp⟩

/-! ## Claims -/

/-- C4: `append_obituary` returns exactly the record text it appended:
the log afterwards is the prior content (or the fixed header when the
log was absent) followed by the returned string, with the prior bytes
untouched. -/
theorem c4_append_frame (fn ob : String) (meta : Meta) (today : String) :
    (∀ c : String, (append_obituary (some c) fn ob meta today).2 =
      some (c ++ (append_obituary (some c) fn ob meta today).1)) ∧
    (append_obituary none fn ob meta today).2 =
      some (GRAVEYARD_HEADER ++ (append_obituary none fn ob meta today).1) :=
  ⟨fun _ => rfl, rfl⟩

/-- C5: log creation is idempotent: running `ensure_graveyard` twice on
an absent log gives byte-identical content to running it once, and on
an existing log (whatever its content) it changes nothing. -/
theorem c5_ensure_idempotent :
    ensure_graveyard (ensure_graveyard none) = ensure_graveyard none ∧
    ∀ c : String, ensure_graveyard (some c) = some c :=
  ⟨rfl, fun _ => rfl⟩

/-- C9: on an absent log, `list_obituaries` returns the empty sequence
and `read_graveyard` returns a placeholder containing
`"No GRAVEYARD.md found"`; on a present log, `read_graveyard` returns
its content verbatim. -/
theorem c9_missing_log :
    list_obituaries none = [] ∧
    hasSub noGraveyardPat.data (read_graveyard none).data = true ∧
    ∀ c : String, read_graveyard (some c) = c :=
  ⟨rfl, by decide, fun _ => rfl⟩

/-- C1 counterexample: a call to `append_obituary` with metadata that
has no `reason` entry produces a record whose text nowhere contains
`"Deleted (cause unknown)"` — its cause-of-death line reads
`"**Cause of death:** Unknown  "` instead (the claimed fallback string
is the CLI's default `--reason`, not the store's). -/
theorem c1_counterexample :
    hasSub deletedCauseUnknown.data
      ((append_obituary none sampleFile sampleOb {} sampleDay).1).data = false ∧
    hasSub causeUnknownLine.data
      ((append_obituary none sampleFile sampleOb {} sampleDay).1).data = true := by
  constructor
  · decide
  · decide

/-- C1 (amended): whenever the metadata of an `append_obituary` call
contains no `reason` entry, the record text it formats and appends
carries the cause-of-death line with the fallback text `"Unknown"`
(the whole line `"**Cause of death:** Unknown  \n"` occurs in the
appended text). -/
theorem c1_cause_fallback_unknown (log : Option String) (fn ob : String)
    (meta : Meta) (today : String) (h : meta.reason = none) :
    hasSub causeUnknownLine.data
      ((append_obituary log fn ob meta today).1).data = true := by
  have hrsn : meta.reason.getD unknownCap = unknownCap := by rw [h]; rfl
  show hasSub causeUnknownLine.data (entryL fn.data
    (meta.born.getD unknownLower).data (meta.died.getD today).data
    (meta.reason.getD unknownCap).data (meta.last_words.getD emptyStr).data
    ob.data) = true
  rw [hrsn]
  have hform : entryL fn.data (meta.born.getD unknownLower).data
      (meta.died.getD today).data unknownCap.data
      (meta.last_words.getD emptyStr).data ob.data =
      (mark ++ fn.data ++ '\n' :: (livedLineL (meta.born.getD unknownLower).data
        (meta.died.getD today).data ++ '\n' :: [])) ++
      (causeUnknownLine.data ++
        ((if (meta.last_words.getD emptyStr).data.isEmpty then []
          else lwLineL (meta.last_words.getD emptyStr).data ++ '\n' :: []) ++
          ('\n' :: (bodyBlockL ob.data ++ '\n' :: (threeDash ++ '\n' :: []))))) := by
    rw [show causeUnknownLine.data = causeLineL unknownCap.data ++ '\n' :: [] from rfl]
    simp [entryL, entryRestL, List.append_assoc]
  rw [hform]
  exact hasSub_append_self _ _ _

/-- C1 witness: the amended theorem at a concrete call. -/
theorem c1_cause_fallback_unknown_witness :
    hasSub causeUnknownLine.data
      ((append_obituary none sampleFile sampleOb {} sampleDay).1).data = true :=
  c1_cause_fallback_unknown none sampleFile sampleOb {} sampleDay rfl

set_option maxRecDepth 10000 in
/-- C6 counterexample: appending with the newline-free filename
`" x "` (padded with spaces) yields a last record whose parsed filename
is `"x"`, not `" x "` — `list_obituaries` strips the heading line. -/
theorem c6_counterexample :
    (list_obituaries (append_obituary none paddedFile sampleOb {} sampleDay).2).map
      Obit.filename = [strippedFile] ∧ strippedFile ≠ paddedFile := by
  constructor
  · decide
  · decide

/-- C6 (amended): for a filename free of line-boundary characters,
metadata values free of line-boundary characters and any obituary text,
one `append_obituary` call extends `list_obituaries` by exactly one
record, and the new last record's filename is the appended filename
stripped of surrounding whitespace. -/
theorem c6_append_adds_one_record (log : Option String) (fn ob : String)
    (meta : Meta) (today : String)
    (hfn : noLBL fn.data)
    (hb : ∀ s, meta.born = some s → noLBL s.data)
    (hd : ∀ s, meta.died = some s → noLBL s.data)
    (hr : ∀ s, meta.reason = some s → noLBL s.data)
    (hlw : ∀ s, meta.last_words = some s → noLBL s.data)
    (htoday : noLBL today.data) :
    ∃ rec : Obit,
      list_obituaries (append_obituary log fn ob meta today).2 =
        list_obituaries log ++ [rec] ∧
      (list_obituaries (append_obituary log fn ob meta today).2).length =
        (list_obituaries log).length + 1 ∧
      rec.filename = String.mk (pyStripL fn.data) := by
  have hb' : noLBL (meta.born.getD unknownLower).data := by
    cases hmb : meta.born with
    | none => decide
    | some s => exact hb s hmb
  have hd' : noLBL (meta.died.getD today).data := by
    cases hmd : meta.died with
    | none => exact htoday
    | some s => exact hd s hmd
  have hr' : noLBL (meta.reason.getD unknownCap).data := by
    cases hmr : meta.reason with
    | none => decide
    | some s => exact hr s hmr
  have hlw' : noLBL (meta.last_words.getD emptyStr).data := by
    cases hml : meta.last_words with
    | none => decide
    | some s => exact hlw s hml
  have heq := list_obituaries_append log fn ob meta today hfn hb' hd' hr' hlw'
  exact ⟨_, heq, by rw [heq]; simp, rfl⟩

/-- C2: starting from an absent log, appending a record with metadata
`{born: "2020-01-01", died: "2024-12-31", reason: "R"}` for any
newline-free filename and any obituary text, then listing, yields
exactly one record whose `lived` field contains both date strings and
whose `cause` field contains `"R"`. -/
theorem c2_roundtrip (fn ob today : String) (hfn : noLBL fn.data) :
    ∃ rec : Obit,
      list_obituaries (append_obituary none fn ob
        { born := some d2020, died := some d2024, reason := some rStr } today).2 =
        [rec] ∧
      hasSub d2020.data rec.lived.data = true ∧
      hasSub d2024.data rec.lived.data = true ∧
      hasSub rStr.data rec.cause.data = true := by
  have heq' : list_obituaries (append_obituary none fn ob
      { born := some d2020, died := some d2024, reason := some rStr } today).2 =
      [entryRecord fn.data d2020.data d2024.data rStr.data [] ob.data] :=
    list_obituaries_append none fn ob
      { born := some d2020, died := some d2024, reason := some rStr } today hfn
      (by decide) ((by decide : noLBL d2024.data)) (by decide) (by decide)
  have hdrop : (entryLines fn.data d2020.data d2024.data rStr.data [] ob.data).drop 1 =
      livedLineL d2020.data d2024.data :: causeLineL rStr.data :: ([] : List Char) ::
        ((pySplitlinesL ob.data).map chunkLine ++ [[], threeDash]) := by
    unfold entryLines
    simp
  have hfold : ((entryLines fn.data d2020.data d2024.data rStr.data [] ob.data).drop 1).foldl
      pstep ⟨[], [], []⟩ =
      ((pySplitlinesL ob.data).map chunkLine ++ [[], threeDash]).foldl pstep
        ⟨livedParsed.data, rStr.data, []⟩ := by
    rw [hdrop]
    rfl
  have hkeep := foldl_pstep_keep ((pySplitlinesL ob.data).map chunkLine ++ [[], threeDash])
    ⟨livedParsed.data, rStr.data, []⟩ (tailLines_labelNone ob.data)
  have hlv : (entryRecord fn.data d2020.data d2024.data rStr.data [] ob.data).lived =
      String.mk livedParsed.data := by
    show String.mk (((entryLines fn.data d2020.data d2024.data rStr.data [] ob.data).drop
      1).foldl pstep ⟨[], [], []⟩).lived = _
    rw [hfold, hkeep.1]
  have hcz : (entryRecord fn.data d2020.data d2024.data rStr.data [] ob.data).cause =
      String.mk rStr.data := by
    show String.mk (((entryLines fn.data d2020.data d2024.data rStr.data [] ob.data).drop
      1).foldl pstep ⟨[], [], []⟩).cause = _
    rw [hfold, hkeep.2]
  refine ⟨entryRecord fn.data d2020.data d2024.data rStr.data [] ob.data, heq', ?_, ?_, ?_⟩
  · rw [hlv]; decide
  · rw [hlv]; decide
  · rw [hcz]; decide

/-- C2 witness: the round-trip theorem at a concrete call. -/
theorem c2_roundtrip_witness :
    ∃ rec : Obit,
      list_obituaries (append_obituary none sampleFile sampleOb
        { born := some d2020, died := some d2024, reason := some rStr } sampleDay).2 =
        [rec] ∧
      hasSub d2020.data rec.lived.data = true ∧
      hasSub d2024.data rec.lived.data = true ∧
      hasSub rStr.data rec.cause.data = true :=
  c2_roundtrip sampleFile sampleOb sampleDay (by decide)

/-- C6 witness: the amended theorem at a concrete call. -/
theorem c6_append_adds_one_record_witness :
    ∃ rec : Obit,
      list_obituaries (append_obituary none sampleFile sampleOb {} sampleDay).2 =
        list_obituaries none ++ [rec] ∧
      (list_obituaries (append_obituary none sampleFile sampleOb {} sampleDay).2).length =
        (list_obituaries none).length + 1 ∧
      rec.filename = String.mk (pyStripL sampleFile.data) :=
  c6_append_adds_one_record none sampleFile sampleOb {} sampleDay (by decide)
    (fun s h => nomatch h) (fun s h => nomatch h) (fun s h => nomatch h)
    (fun s h => nomatch h) (by decide)

/-! ### Composer claims -/

theorem mk_append_cons_ne_empty (a : List Char) (c : Char) (b : List Char) :
    String.mk (a ++ c :: b) ≠ "" := by
  intro h
  have hd := congrArg String.data h
  simp at hd

/-- The deterministic fallback obituary is never the empty string: its
text starts with the filename followed by a space. -/
theorem template_ne_empty (filename content : String)
    (born died reason : Option String) :
    generate_template_obituary filename content born died reason ≠ "" :=
  mk_append_cons_ne_empty filename.data ' ' _

theorem append_ne_empty_left (s t : String) (h : s ≠ "") : s ++ t ≠ "" := by
  intro he
  have hd := congrArg String.data he
  rw [String.data_append] at hd
  simp only [show ("" : String).data = [] from rfl, List.append_eq_nil] at hd
  exact h (String.ext hd.1)

/-- C7: `generate_template_obituary` is a pure Lean function of its
arguments (equal inputs give equal outputs by construction), and for
all inputs its output is non-empty and contains the filename verbatim
as a substring (indeed as a prefix). -/
theorem c7_template_deterministic_nonempty (filename content : String)
    (born died reason : Option String) :
    generate_template_obituary filename content born died reason ≠ "" ∧
    hasSub filename.data
      (generate_template_obituary filename content born died reason).data = true :=
  ⟨template_ne_empty filename content born died reason,
    hasSub_append_self filename.data [] _⟩

/-- C10: when `born` is provided but `died` is absent, the lifetime
clause is empty and the born date is silently dropped — the output
coincides with the output for `born = None`. -/
theorem c10_born_without_died_dropped (filename content : String)
    (reason : Option String) (b : String) :
    generate_template_obituary filename content (some b) none reason =
      generate_template_obituary filename content none none reason := by
  unfold generate_template_obituary
  have hlt : gtoLifetime (some b) none = gtoLifetime none none := by
    unfold gtoLifetime optTruthy
    simp
  rw [hlt]

/-- C3: `generate_obituary` is total (it never raises, by
construction); when the service is unconfigured (`ANTHROPIC_API_KEY`
absent or empty) it returns the deterministic fallback obituary; when
the service is configured and the call fails with any exception `e`,
it returns the fallback obituary followed by the unavailability note;
in both cases the result is non-empty, with no error visible to the
caller. -/
theorem c3_generate_obituary_fallback (filename content : String)
    (reason born died : Option String) (env : Option String)
    (svc : Except String String) :
    (optTruthy env = false →
      generate_obituary env svc filename content reason born died =
        generate_template_obituary filename content born died reason) ∧
    (∀ e : String, svc = Except.error e → optTruthy env = true →
      generate_obituary env svc filename content reason born died =
        generate_template_obituary filename content born died reason ++
          aiNotePre ++ e ++ aiNotePost) ∧
    ((optTruthy env = false ∨ ∃ e, svc = Except.error e) →
      generate_obituary env svc filename content reason born died ≠ "") := by
  refine ⟨?_, ?_, ?_⟩
  · intro h
    unfold generate_obituary
    rw [h]
    simp
  · intro e hsvc henv
    unfold generate_obituary
    rw [henv, hsvc]
    simp [_generate_ai_obituary]
  · intro hcase
    unfold generate_obituary
    by_cases henv : optTruthy env = true
    · rw [henv]
      simp only [if_true]
      rcases hcase with h | ⟨e, he⟩
      · rw [henv] at h; cases h
      · rw [he]
        unfold _generate_ai_obituary
        exact append_ne_empty_left _ _ (append_ne_empty_left _ _ (append_ne_empty_left _ _
          (template_ne_empty filename content born died reason)))
    · simp only [Bool.not_eq_true] at henv
      rw [henv]
      simp only [Bool.false_eq_true, if_false]
      exact template_ne_empty filename content born died reason

/-! ### Symbol-extractor claims -/

theorem stripPre_eq : ∀ p s r : List Char, stripPre p s = some r → s = p ++ r := by
  intro p
  induction p with
  | nil =>
    intro s r h
    simp only [stripPre, Option.some.injEq] at h
    rw [List.nil_append, h]
  | cons c p ih =>
    intro s r h
    cases s with
    | nil => simp [stripPre] at h
    | cons d s' =>
      unfold stripPre at h
      by_cases hcd : c = d
      · rw [if_pos hcd] at h
        rw [List.cons_append, ← hcd, ih s' r h]
      · rw [if_neg hcd] at h
        cases h

theorem stripPre_suffix (p s r : List Char) (h : stripPre p s = some r) : r <:+ s :=
  ⟨p, (stripPre_eq p s r h).symm⟩

theorem tryAsync_suffix (cs : List Char) : tryAsync cs <:+ cs := by
  unfold tryAsync
  split
  next r heq =>
    split
    next c hc =>
      split
      next hws =>
        exact (List.dropWhile_suffix pyIsSpace).trans (stripPre_suffix _ _ _ heq)
      next hws => exact List.suffix_refl cs
    next => exact List.suffix_refl cs
  next => exact List.suffix_refl cs

theorem munchId_spec (l : List Char) (i r : List Char) (h : munchId l = some (i, r)) :
    r <:+ l ∧ r.length < l.length := by
  cases l with
  | nil => simp [munchId] at h
  | cons c rest =>
    simp only [munchId] at h
    split at h
    · have hr : r = rest.dropWhile isIdCont := by
        have := Option.some.inj h
        exact (congrArg Prod.snd this).symm
      have h2 : rest.dropWhile isIdCont <:+ rest := List.dropWhile_suffix isIdCont
      subst hr
      refine ⟨h2.trans (List.suffix_cons c rest), ?_⟩
      have := h2.length_le
      simp only [List.length_cons]
      omega
    · cases h

theorem head_eq_tail_suffix_lt (l : List Char) (c : Char)
    (h : (l.head? == some c) = true) : l.tail <:+ l ∧ l.tail.length < l.length := by
  cases l with
  | nil => simp at h
  | cons a rest =>
    constructor
    · exact List.suffix_cons a rest
    · simp

/-- Everything a successful `def`-pattern match guarantees: the rest is
a strictly shorter suffix of the input, and the input contains the
literal `"def"`. -/
theorem matchDefAt_spec (cs i r : List Char) (h : matchDefAt cs = some (i, r)) :
    r <:+ cs ∧ r.length < cs.length ∧ defKw <:+: cs := by
  simp only [matchDefAt] at h
  split at h
  next hstrip => cases h
  next r3 hstrip =>
    split at h
    next c hh =>
      split at h
      next hws =>
        split at h
        next hmu => cases h
        next id r5 hmu =>
          split at h
          next hc6 =>
            have hir := Option.some.inj h
            have hr : r = (r5.dropWhile pyIsSpace).tail :=
              (congrArg Prod.snd hir).symm
            have s2 : tryAsync (cs.dropWhile pyIsSpace) <:+ cs :=
              (tryAsync_suffix _).trans (List.dropWhile_suffix pyIsSpace)
            have s3 : r3 <:+ cs := (stripPre_suffix _ _ _ hstrip).trans s2
            have s4 : r3.dropWhile pyIsSpace <:+ r3 := List.dropWhile_suffix pyIsSpace
            have hm5 := munchId_spec _ _ _ hmu
            have s6 : r5.dropWhile pyIsSpace <:+ r5 := List.dropWhile_suffix pyIsSpace
            have s7 := head_eq_tail_suffix_lt _ _ hc6
            subst hr
            refine ⟨?_, ?_, ?_⟩
            · exact s7.1.trans (s6.trans (hm5.1.trans (s4.trans s3)))
            · have l7 := s7.2
              have l6 := s6.length_le
              have l5 := hm5.2
              have l4 := s4.length_le
              have l3 := s3.length_le
              omega
            · have hpre : defKw <+: tryAsync (cs.dropWhile pyIsSpace) :=
                ⟨r3, (stripPre_eq _ _ _ hstrip).symm⟩
              exact (hpre.isInfix).trans s2.isInfix
          next => cases h
      next => cases h
    next => cases h

/-- The analogous guarantees for the `class`-pattern matcher. -/
theorem matchClassAt_spec (cs i r : List Char) (h : matchClassAt cs = some (i, r)) :
    r <:+ cs ∧ r.length < cs.length ∧ classKw <:+: cs := by
  simp only [matchClassAt] at h
  split at h
  next hstrip => cases h
  next r2 hstrip =>
    split at h
    next c hh =>
      split at h
      next hws =>
        split at h
        next hmu => cases h
        next id r4 hmu =>
          split at h
          next hc5 =>
            have hir := Option.some.inj h
            have hr : r = (r4.dropWhile pyIsSpace).tail :=
              (congrArg Prod.snd hir).symm
            have s2 : r2 <:+ cs :=
              (stripPre_suffix _ _ _ hstrip).trans (List.dropWhile_suffix pyIsSpace)
            have s4 : r2.dropWhile pyIsSpace <:+ r2 := List.dropWhile_suffix pyIsSpace
            have hm5 := munchId_spec _ _ _ hmu
            have s6 : r4.dropWhile pyIsSpace <:+ r4 := List.dropWhile_suffix pyIsSpace
            have s7 : (r4.dropWhile pyIsSpace).tail <:+ r4.dropWhile pyIsSpace ∧
                (r4.dropWhile pyIsSpace).tail.length < (r4.dropWhile pyIsSpace).length := by
              rcases (Bool.or_eq_true _ _).mp hc5 with hx | hx
              · exact head_eq_tail_suffix_lt _ _ hx
              · exact head_eq_tail_suffix_lt _ _ hx
            subst hr
            refine ⟨?_, ?_, ?_⟩
            · exact s7.1.trans (s6.trans (hm5.1.trans (s4.trans s2)))
            · have l7 := s7.2
              have l6 := s6.length_le
              have l5 := hm5.2
              have l4 := s4.length_le
              have l2 := s2.length_le
              omega
            · have hpre : classKw <+: cs.dropWhile pyIsSpace :=
                ⟨r2, (stripPre_eq _ _ _ hstrip).symm⟩
              exact (hpre.isInfix).trans (List.dropWhile_suffix pyIsSpace).isInfix
          next => cases h
      next => cases h
    next => cases h

/-- Every position recorded by a scan is at least the start
position. -/
theorem scanF_lb (m : List Char → Option (List Char × List Char)) :
    ∀ f : Nat, ∀ cs : List Char, ∀ b : Bool, ∀ pos : Nat,
      ∀ x ∈ scanF m f cs b pos, pos ≤ x.1 := by
  intro f
  induction f with
  | zero => intro cs b pos x hx; simp [scanF] at hx
  | succ f ih =>
    intro cs b pos x hx
    match cs with
    | [] => simp [scanF] at hx
    | c :: rest =>
      simp only [scanF] at hx
      split at hx
      · split at hx
        next id r hm =>
          rcases List.mem_cons.mp hx with h | h
          · subst h; exact Nat.le_refl _
          · have := ih r false (pos + (rest.length + 1 - r.length)) x h
            omega
        next hm =>
          have := ih rest (c == '\n') (pos + 1) x hx
          omega
      · have := ih rest (c == '\n') (pos + 1) x hx
        omega

/-- The recorded match positions are strictly increasing: `findall`
returns matches in text order. -/
theorem scanF_pairwise (m : List Char → Option (List Char × List Char))
    (hm : ∀ cs i r, m cs = some (i, r) → r.length < cs.length) :
    ∀ f : Nat, ∀ cs : List Char, ∀ b : Bool, ∀ pos : Nat,
      List.Pairwise (fun x y : Nat × List Char => x.1 < y.1) (scanF m f cs b pos) := by
  intro f
  induction f with
  | zero => intro cs b pos; simp [scanF]
  | succ f ih =>
    intro cs b pos
    match cs with
    | [] => simp [scanF]
    | c :: rest =>
      simp only [scanF]
      split
      · split
        next id r hmm =>
          refine List.pairwise_cons.mpr ⟨?_, ih r false (pos + (rest.length + 1 - r.length))⟩
          intro y hy
          have hlb := scanF_lb m f r false (pos + (rest.length + 1 - r.length)) y hy
          have hlt := hm (c :: rest) id r hmm
          simp only [List.length_cons] at hlt
          omega
        next hmm => exact ih rest (c == '\n') (pos + 1)
      · exact ih rest (c == '\n') (pos + 1)

/-- A non-empty scan result forces the matcher's keyword to occur in
the text. -/
theorem scanF_ne_nil_kw (m : List Char → Option (List Char × List Char))
    (kw : List Char)
    (hm : ∀ cs i r, m cs = some (i, r) → kw <:+: cs) :
    ∀ f : Nat, ∀ cs : List Char, ∀ b : Bool, ∀ pos : Nat,
      scanF m f cs b pos ≠ [] → kw <:+: cs := by
  intro f
  induction f with
  | zero => intro cs b pos h; simp [scanF] at h
  | succ f ih =>
    intro cs b pos h
    match cs with
    | [] => simp [scanF] at h
    | c :: rest =>
      simp only [scanF] at h
      split at h
      · split at h
        next id r hmm => exact hm (c :: rest) id r hmm
        next hmm =>
          exact (ih rest (c == '\n') (pos + 1) h).trans
            (List.suffix_cons c rest).isInfix
      · exact (ih rest (c == '\n') (pos + 1) h).trans
          (List.suffix_cons c rest).isInfix

/-- C8: `extract_symbols` is total and returns the two identifier
sequences exactly as scanned, in strictly increasing match-position
order (i.e. in order of appearance in the text); the empty input and
any input without the literal `"def"` / `"class"` yield empty
sequences. -/
theorem c8_extract_symbols :
    (extract_symbols "").functions = [] ∧
    (extract_symbols "").classes = [] ∧
    (∀ content : String,
      (extract_symbols content).functions =
        (defMatches content).map (fun p => String.mk p.2) ∧
      (extract_symbols content).classes =
        (classMatches content).map (fun p => String.mk p.2) ∧
      List.Pairwise (fun x y : Nat × List Char => x.1 < y.1) (defMatches content) ∧
      List.Pairwise (fun x y : Nat × List Char => x.1 < y.1) (classMatches content)) ∧
    (∀ content : String, hasSub defKw content.data = false →
      (extract_symbols content).functions = []) ∧
    (∀ content : String, hasSub classKw content.data = false →
      (extract_symbols content).classes = []) := by
  refine ⟨rfl, rfl, ?_, ?_, ?_⟩
  · intro content
    refine ⟨rfl, rfl, ?_, ?_⟩
    · exact scanF_pairwise matchDefAt
        (fun cs i r h => (matchDefAt_spec cs i r h).2.1) _ _ _ _
    · exact scanF_pairwise matchClassAt
        (fun cs i r h => (matchClassAt_spec cs i r h).2.1) _ _ _ _
  · intro content h
    by_cases hscan : defMatches content = []
    · show (defMatches content).map _ = []
      rw [hscan]
      rfl
    · exfalso
      have hinf := scanF_ne_nil_kw matchDefAt defKw
        (fun cs i r hh => (matchDefAt_spec cs i r hh).2.2) _ _ _ _ hscan
      have := (hasSub_eq_true_iff defKw content.data).mpr hinf
      rw [h] at this
      cases this
  · intro content h
    by_cases hscan : classMatches content = []
    · show (classMatches content).map _ = []
      rw [hscan]
      rfl
    · exfalso
      have hinf := scanF_ne_nil_kw matchClassAt classKw
        (fun cs i r hh => (matchClassAt_spec cs i r hh).2.2) _ _ _ _ hscan
      have := (hasSub_eq_true_iff classKw content.data).mpr hinf
      rw [h] at this
      cases this

/-- C8 witness: the theorem at a concrete declaration-free input. -/
theorem c8_extract_symbols_witness :
    (extract_symbols plainContent).functions = [] ∧
    (extract_symbols plainContent).classes = [] :=
  ⟨c8_extract_symbols.2.2.2.1 plainContent (by decide),
    c8_extract_symbols.2.2.2.2 plainContent (by decide)⟩

/-- C3 witness: the theorem at concrete calls — unconfigured service,
and configured service whose call raises. -/
theorem c3_generate_obituary_fallback_witness :
    generate_obituary none (Except.error errBoom) sampleFile sampleOb none none none =
      generate_template_obituary sampleFile sampleOb none none none ∧
    generate_obituary (some apiKeySample) (Except.error errBoom) sampleFile sampleOb
        none none none =
      generate_template_obituary sampleFile sampleOb none none none ++
        aiNotePre ++ errBoom ++ aiNotePost ∧
    generate_obituary none (Except.error errBoom) sampleFile sampleOb none none none ≠ "" :=
  ⟨(c3_generate_obituary_fallback sampleFile sampleOb none none none none
      (Except.error errBoom)).1 rfl,
    (c3_generate_obituary_fallback sampleFile sampleOb none none none (some apiKeySample)
      (Except.error errBoom)).2.1 errBoom rfl (by decide),
    (c3_generate_obituary_fallback sampleFile sampleOb none none none none
      (Except.error errBoom)).2.2 (Or.inl rfl)⟩

end CodeObituary
